import Mathlib

/-!
Verification development for `submod`, a Go command-line tool that shifts every
timestamp of an `.srt`/`.vtt` subtitle file by a signed number of seconds.

The Go source (`submod.go`) is shallowly embedded here:

* Go strings are modelled as `List Char` (the inputs of interest are ASCII, so
  Go's byte indexing coincides with character indexing).
* Go `float64` arithmetic is modelled exactly over `ℚ`: `floatRound` is
  round-to-nearest-even onto 53-bit significands, which is precisely the IEEE
  double rounding performed by Go for `strconv.ParseFloat`, multiplication and
  addition in the normal range (the only range exercised here).  Conversion
  `time.Duration(x)` of a float truncates toward zero (`truncQ`).
* Fallible operations (out-of-range slicing, which panics in Go, and numeric
  parse failures, which `log.Fatal` in Go) are modelled with `Option`: `none`
  means the run aborts without producing output.
-/

attribute [local semireducible] Rat.add Rat.mul Rat.sub Rat.inv

set_option maxRecDepth 1000000

/-- Test whether the character is an ASCII digit. -/
def isDig (c : Char) : Bool := '0' ≤ c && c ≤ '9'

/-- Numeric value of a list of ASCII digits, most significant first. -/
def digitsToNat (l : List Char) : ℕ :=
  l.foldl (fun a c => 10 * a + (c.toNat - 48)) 0

/-- Floor logarithm base 2 with explicit fuel (structural recursion, so the
kernel can evaluate it). -/
def log2fuel : ℕ → ℕ → ℕ
  | 0, _ => 0
  | fuel + 1, n => if n ≤ 1 then 0 else log2fuel fuel (n / 2) + 1

/-- Floor of the base-2 logarithm of `n`, for `n ≥ 1` (and `0` for `n = 0`). -/
def log2floor (n : ℕ) : ℕ := log2fuel n n

/-- Ceiling of the base-2 logarithm of `n`, for `n ≥ 1`: the least `k` with `n ≤ 2 ^ k`. -/
def log2ceil (n : ℕ) : ℕ := if n ≤ 1 then 0 else log2floor (n - 1) + 1

/-- Ceiling of a nonnegative rational, as a natural number. -/
def ratCeilNat (q : ℚ) : ℕ := (q.num.toNat + q.den - 1) / q.den

/-- Round a rational to the nearest integer, ties to even (IEEE default). -/
def rne (q : ℚ) : ℤ :=
  let f := q.floor
  let r := q - f
  if 2 * r < 1 then f
  else if 1 < 2 * r then f + 1
  else if f % 2 = 0 then f else f + 1

/-- Floor of the base-2 logarithm of a positive rational `q`. -/
def flog2 (q : ℚ) : ℤ :=
  if 1 ≤ q then (log2floor (q.floor.toNat) : ℤ)
  else -(log2ceil (ratCeilNat q⁻¹) : ℤ)

/-- Round a positive rational to the nearest IEEE-754 binary64 value
(round-to-nearest, ties-to-even, 53-bit significand; normal range). -/
def floatRoundPos (a : ℚ) : ℚ :=
  if a ≤ 0 then 0
  else
    let e : ℤ := flog2 a
    if 52 - e ≥ 0 then
      (rne (a * 2 ^ (52 - e).toNat) : ℚ) / 2 ^ (52 - e).toNat
    else
      (rne (a / 2 ^ (e - 52).toNat) : ℚ) * 2 ^ (e - 52).toNat

/-- Exact value of the IEEE binary64 double nearest to a rational: the result
of every Go `float64` operation whose exact value is the argument. -/
def floatRound (q : ℚ) : ℚ :=
  if q < 0 then -floatRoundPos (-q) else floatRoundPos q

/-- Truncation of a rational toward zero: Go's conversion of a `float64` to an
integer type such as `time.Duration`. -/
def truncQ (q : ℚ) : ℤ := if 0 ≤ q then q.floor else -(-q).floor

/-- Go slice expression `l[a:b]` on a string: panics (modelled as `none`) when
`a ≤ b ≤ len l` fails. -/
def goSliceL (l : List Char) (a b : ℕ) : Option (List Char) :=
  if a ≤ b ∧ b ≤ l.length then some ((l.drop a).take (b - a)) else none

/-- Go `strconv.Atoi`: an optional sign followed by one or more digits
(the int64 range is never exercised here). -/
def goAtoi (s : List Char) : Option ℤ :=
  match s with
  | '+' :: rest => if rest ≠ [] ∧ rest.all isDig then some (digitsToNat rest) else none
  | '-' :: rest => if rest ≠ [] ∧ rest.all isDig then some (-(digitsToNat rest : ℤ)) else none
  | _ => if s ≠ [] ∧ s.all isDig then some (digitsToNat s) else none

/-- Go `strconv.ParseFloat` for plain decimal forms `[sign] digits [. digits]`
(the forms arising from subtitle fields; exponent/hex/inf forms never arise and
are modelled as parse failures).  The result is the nearest binary64 value of
the decimal, exactly as `ParseFloat` guarantees. -/
def goParseFloat (s : List Char) : Option ℚ :=
  let core : List Char → Option ℚ := fun body =>
    match body.splitOn '.' with
    | [i] => if i ≠ [] ∧ i.all isDig then some (floatRound (digitsToNat i)) else none
    | [i, f] =>
        if (i ++ f) ≠ [] ∧ (i ++ f).all isDig then
          some (floatRound ((digitsToNat i : ℚ) + (digitsToNat f : ℚ) / 10 ^ f.length))
        else none
    | _ => none
  match s with
  | '+' :: rest => core rest
  | '-' :: rest => (core rest).map (fun x => -x)
  | _ => core s

/-- The deletion sentinel `"(DELETED)\n"` of `submod.go`. -/
def deletedSentinel : List Char := "(DELETED)\n".toList

/-- Decimal digits of `n` left-padded with `'0'` to width at least `w`:
Go's `%0wd` and the integer part of `%0w.3f`. -/
def pad (w : ℕ) (n : ℕ) : List Char :=
  let d := (Nat.repr n).toList
  List.replicate (w - d.length) '0' ++ d

/-- Rendering of a nonnegative millisecond count by
`fmt.Sprintf("%02d:%02d:%06.3f", hrs, mins, secs)` in `process_time`
(lines 337–340 of `submod.go`): `hrs = new_time / Hour`,
`mins = (new_time % Hour) / Minute`, `secs = ((new_time % Minute) /
Millisecond) / 1000`.  `%06.3f` of `k/1000` with `0 ≤ k ≤ 59999` prints the
exact three-decimal value of `k` (the binary64 representation error of
`k/1000` is far below the rounding step), i.e. a two-digit zero-padded
integer part, a period, and three digits. -/
def fmtTime (ms : ℕ) : List Char :=
  pad 2 (ms / 3600000) ++ ':' :: pad 2 (ms % 3600000 / 60000) ++
    ':' :: pad 2 (ms % 60000 / 1000) ++ '.' :: pad 3 (ms % 60000 % 1000)

/-- Lines 313–330 of `submod.go` (`process_time` before the sign test): parse
`time_string[0:2]`, `[3:5]`, `[6:12]`, convert to `time.Duration` and add the
offset, expressed in milliseconds (every summand of the Go nanosecond
computation is a multiple of `time.Millisecond`).
`time.Duration(secs*1000)` and `time.Duration(incr*1000)` truncate the
`float64` products toward zero. -/
def shiftMs (time_string : List Char) (incr : ℚ) : Option ℤ := do
  let hs ← goSliceL time_string 0 2
  let hrs ← goAtoi hs
  let ms ← goSliceL time_string 3 5
  let mins ← goAtoi ms
  let ss ← goSliceL time_string 6 12
  let secs ← goParseFloat ss
  pure (hrs * 3600000 + mins * 60000 +
    truncQ (floatRound (secs * 1000)) + truncQ (floatRound (incr * 1000)))

/-- Function `process_time` of `submod.go` (lines 312–348): shift the 12-character time
string by `incr` seconds; if the new time is negative, return the deletion
sentinel, otherwise format it. -/
def process_time (time_string : List Char) (incr : ℚ) : Option (List Char) :=
  (shiftMs time_string incr).map fun new_time =>
    if 0 ≤ new_time then fmtTime new_time.toNat else deletedSentinel

/-- Function `process_line` of `submod.go` (lines 287–305): slice the start
(`line[0:12]`) and end (`line[17:29]`) time strings, shift both, and apply the
three-way delete/clamp policy. -/
def process_line (line : List Char) (seconds : ℚ) : Option (List Char) := do
  let startS ← goSliceL line 0 12
  let start ← process_time startS seconds
  let endS ← goSliceL line 17 29
  let endT ← process_time endS seconds
  pure (if start = deletedSentinel then
          if endT = deletedSentinel then deletedSentinel
          else "00:00:00.000 --> ".toList ++ endT
        else start ++ " --> ".toList ++ endT)

/-- The 12-character time pattern `\d\d:\d\d:\d\d<sep>\d\d\d` at the head of a
list (`sep` is `'.'` for `.vtt`, `','` for `.srt`). -/
def timeShapeAt (sep : Char) : List Char → Bool
  | a :: b :: c :: d :: e :: f :: g :: h :: i :: j :: k :: m :: _ =>
      isDig a && isDig b && decide (c = ':') && isDig d && isDig e && decide (f = ':') &&
        isDig g && isDig h && decide (i = sep) && isDig j && isDig k && isDig m
  | _ => false

/-- Go `re.MatchString` for the time-line regex: the pattern occurs somewhere
in the line. -/
def timeMatch (sep : Char) (l : List Char) : Bool :=
  l.tails.any (timeShapeAt sep)

/-- Go `strings.Replace(s, old, new, n)` for single-character patterns:
replace the first `n` occurrences of `old` by `nw`. -/
def goReplace : List Char → Char → Char → ℕ → List Char
  | [], _, _, _ => []
  | c :: cs, o, nw, n =>
      if n = 0 then c :: cs
      else if c = o then nw :: goReplace cs o nw (n - 1)
      else c :: goReplace cs o nw n

/-- One iteration of the scanner loop of `convert_vtt` (lines 147–180 of
`submod.go`).  State: the `skip` flag, the `deleted_subs` counter and the bytes
written to the output file so far (`output.WriteString(new_line + "\n")`
appends `new_line ++ "\n"`). -/
def convert_vtt_step (seconds : ℚ) (st : Bool × ℕ × List Char) (old_line : List Char) :
    Option (Bool × ℕ × List Char) :=
  let (skip, deleted, out) := st
  if timeMatch '.' old_line then
    (process_line old_line seconds).bind fun new_line =>
      if new_line = deletedSentinel then
        some (true, deleted + 1, out ++ new_line ++ ['\n'])
      else some (skip, deleted, out ++ new_line ++ ['\n'])
  else
    if skip then
      if old_line = [] then some (false, deleted, out) else some (skip, deleted, out)
    else some (skip, deleted, out ++ old_line ++ ['\n'])

/-- Function `convert_vtt` of `submod.go` (lines 123–187) on the list of scanned input
lines: returns the bytes of the output file and `deleted_subs`.  `none` models
a fatal abort (slice panic or `log.Fatal`). -/
def convert_vtt (lines : List (List Char)) (seconds : ℚ) : Option (List Char × ℕ) :=
  (List.foldlM (convert_vtt_step seconds) (false, 0, []) lines).map
    fun st => (st.2.2, st.2.1)

/-- One iteration of the scanner loop of `convert_srt` (lines 234–272 of
`submod.go`): identical to the `.vtt` loop except that the time pattern uses
`','`, the first two commas are turned into periods before `process_line`, and
the first two periods are turned back into commas afterwards (not on the
deletion sentinel). -/
def convert_srt_step (seconds : ℚ) (st : Bool × ℕ × List Char) (old_line : List Char) :
    Option (Bool × ℕ × List Char) :=
  let (skip, deleted, out) := st
  if timeMatch ',' old_line then
    (process_line (goReplace old_line ',' '.' 2) seconds).bind fun new_line =>
      if new_line = deletedSentinel then
        some (true, deleted + 1, out ++ new_line ++ ['\n'])
      else some (skip, deleted, out ++ goReplace new_line '.' ',' 2 ++ ['\n'])
  else
    if skip then
      if old_line = [] then some (false, deleted, out) else some (skip, deleted, out)
    else some (skip, deleted, out ++ old_line ++ ['\n'])

/-- Function `convert_srt` of `submod.go` (lines 210–279) on the list of scanned input
lines: returns the bytes of the output file and `deleted_subs`. -/
def convert_srt (lines : List (List Char)) (seconds : ℚ) : Option (List Char × ℕ) :=
  (List.foldlM (convert_srt_step seconds) (false, 0, []) lines).map
    fun st => (st.2.2, st.2.1)

/-- Leftmost-match attempt of the extraction regex `[+-]\d+\.\d+` of
`name_output` at the head of the list: a sign, one or more digits, a period,
one or more digits (both `\d+` greedy, which is what Go's leftmost-first
matching produces for this pattern). -/
def signedNumAt (l : List Char) : Option (List Char) :=
  match l with
  | c :: rest =>
      if c = '+' ∨ c = '-' then
        let d1 := rest.takeWhile isDig
        let r1 := rest.drop d1.length
        if d1 = [] then none
        else
          match r1 with
          | '.' :: r2 =>
              let d2 := r2.takeWhile isDig
              if d2 = [] then none else some (c :: d1 ++ '.' :: d2)
          | _ => none
      else none
  | [] => none

/-- Go `re.FindString` for `[+-]\d+\.\d+`: the match at the leftmost position
where one starts (`none` when the regex does not match; Go then returns `""`
and the subsequent `ParseFloat` aborts the run). -/
def findSignedNum : List Char → Option (List Char)
  | [] => none
  | x :: rest =>
      match signedNumAt (x :: rest) with
      | some s => some s
      | none => findSignedNum rest

/-- Match attempt of the re-processing tag regex `\{[+-]\d+\.\d+_Sec\}_` of
`name_output` at the head of the list, returning the length of the match. -/
def procTagAt (l : List Char) : Option ℕ :=
  match l with
  | '\x7b' :: c :: rest =>
      if c = '+' ∨ c = '-' then
        let d1 := rest.takeWhile isDig
        let r1 := rest.drop d1.length
        if d1 = [] then none
        else
          match r1 with
          | '.' :: r2 =>
              let d2 := r2.takeWhile isDig
              let r3 := r2.drop d2.length
              if d2 = [] then none
              else if r3.take 6 = "_Sec\x7d_".toList then
                some (2 + d1.length + 1 + d2.length + 6)
              else none
          | _ => none
      else none
  | _ => none

/-- Go `proc.FindStringIndex(inputfile)[1]`: the end position of the leftmost
occurrence of the tag pattern (`none` when `proc.MatchString` is false). -/
def findProcTagEnd : List Char → Option ℕ
  | [] => none
  | x :: rest =>
      match procTagAt (x :: rest) with
      | some k => some k
      | none => (findProcTagEnd rest).map (· + 1)

/-- Go `fmt.Sprintf("%.2f", x)` for a binary64 value `x` given by its exact
rational value: the exact value is correctly rounded to two decimals (ties to
even, as Go's `strconv.FormatFloat` does), with a `-` sign for negative
values. -/
def fmt2f (x : ℚ) : List Char :=
  let m : ℕ := (rne (|x| * 100)).toNat
  (if x < 0 then ['-'] else []) ++ (Nat.repr (m / 100)).toList ++ '.' :: pad 2 (m % 100)

/-- Function `name_output` of `submod.go` (lines 55–100).  If the filename contains the
tag pattern `\{[+-]\d+\.\d+_Sec\}_`, the leftmost `[+-]\d+\.\d+` substring
anywhere in the name is parsed, the new offset is added (`float64` addition),
and the result replaces everything up to the end of the leftmost tag
occurrence; otherwise a fresh tag is prepended to the whole name.  The final
`fmt.Sprintf(placeholder, incr)` is modelled as splicing the `%.2f` rendering
of `incr` into the placeholder, which is exact whenever the filename contains
no `'%'` (a filename with formatting verbs would additionally be mangled by
`Sprintf`). -/
def name_output (inputfile : List Char) (seconds : ℚ) : Option (List Char) :=
  match findProcTagEnd inputfile with
  | some e => do
      let number ← findSignedNum inputfile
      let num ← goParseFloat number
      let incr := floatRound (num + seconds)
      pure ((if 0 ≤ incr then "\x7b+".toList else ['\x7b']) ++ fmt2f incr ++ "_Sec\x7d_".toList ++
        inputfile.drop e)
  | none =>
      let incr := seconds
      some ((if 0 ≤ incr then "\x7b+".toList else ['\x7b']) ++ fmt2f incr ++ "_Sec\x7d_".toList ++
        inputfile)

/-- The tag pattern exactly as §4.5 of the spec states it (`{[+-]DD.DD_Sec}_`
with exactly two digits before and exactly two digits after the decimal
point), at the head of a list.  This follows the spec's words, not the code,
and exists only to compare the two (the code's regex allows one or more digits
on each side). -/
def specTagTwoDigitsAt (l : List Char) : Bool :=
  match l with
  | '\x7b' :: s :: a :: b :: '.' :: c :: d :: '_' :: 'S' :: 'e' :: 'c' :: '\x7d' :: '_' :: _ =>
      (decide (s = '+') || decide (s = '-')) && isDig a && isDig b && isDig c && isDig d
  | _ => false

/-- The spec's tag pattern occurs somewhere in the filename. -/
def containsSpecTagTwoDigits (l : List Char) : Bool :=
  l.tails.any specTagTwoDigitsAt

/-- Zero-padded rendering is at least as wide as requested. -/
lemma pad_length (w n : ℕ) : w ≤ (pad w n).length := by
  simp only [pad, List.length_append, List.length_replicate]
  omega

/-- A formatted time string has at least 12 characters. -/
lemma fmtTime_length (ms : ℕ) : 12 ≤ (fmtTime ms).length := by
  have h1 := pad_length 2 (ms / 3600000)
  have h2 := pad_length 2 (ms % 3600000 / 60000)
  have h3 := pad_length 2 (ms % 60000 / 1000)
  have h4 := pad_length 3 (ms % 60000 % 1000)
  simp only [fmtTime, List.length_append, List.length_cons]
  omega

/-- A formatted time string is never the deletion sentinel (their lengths
differ). -/
lemma fmtTime_ne_sentinel (ms : ℕ) : fmtTime ms ≠ deletedSentinel := by
  intro h
  have hlen : (fmtTime ms).length = deletedSentinel.length := congrArg List.length h
  have h10 : deletedSentinel.length = 10 := by decide
  have h12 := fmtTime_length ms
  omega

/-- A clamped or pass-through time-range line is never the deletion sentinel
(it is at least 27 characters long). -/
lemma append_time_ne_sentinel (pre : List Char) (suf : List Char)
    (hpre : 12 ≤ pre.length) : pre ++ " --> ".toList ++ suf ≠ deletedSentinel := by
  intro h
  have hlen := congrArg List.length h
  simp only [List.length_append] at hlen
  have h10 : deletedSentinel.length = 10 := by decide
  have h5 : (" --> ".toList).length = 5 := by decide
  omega

/-- Unfolding of `process_time` when the shifted time is known. -/
lemma process_time_eq (t : List Char) (q : ℚ) (v : ℤ) (h : shiftMs t q = some v) :
    process_time t q = some (if 0 ≤ v then fmtTime v.toNat else deletedSentinel) := by
  simp [process_time, h]

/-- Master description of `process_line`: once the two slices and their
shifted millisecond values are known, the result is the three-way
delete/clamp/pass policy applied to the signs. -/
lemma process_line_eq (line : List Char) (q : ℚ) (st et : List Char) (sv ev : ℤ)
    (hs : goSliceL line 0 12 = some st) (he : goSliceL line 17 29 = some et)
    (hsv : shiftMs st q = some sv) (hev : shiftMs et q = some ev) :
    process_line line q = some (
      if sv < 0 then
        if ev < 0 then deletedSentinel
        else "00:00:00.000 --> ".toList ++ fmtTime ev.toNat
      else fmtTime sv.toNat ++ " --> ".toList ++
        (if ev < 0 then deletedSentinel else fmtTime ev.toNat)) := by
  have hst := process_time_eq st q sv hsv
  have het := process_time_eq et q ev hev
  simp only [process_line, hs, he, hst, het, Option.bind_eq_bind, Option.some_bind,
    Option.pure_def]
  rcases lt_or_le sv 0 with h1 | h1 <;> rcases lt_or_le ev 0 with h2 | h2
  · simp [not_le.2 h1, not_le.2 h2, h1, h2]
  · simp [not_le.2 h1, h1, h2, not_lt.2 h2, fmtTime_ne_sentinel]
  · simp [h1, not_lt.2 h1, not_le.2 h2, h2, fmtTime_ne_sentinel]
  · simp [h1, not_lt.2 h1, h2, not_lt.2 h2, fmtTime_ne_sentinel]

/-- C3 (code bug): the valid time code `00:00:01.001` shifted by offset `0`
formats back to `00:00:01.000`, not to itself: `strconv.ParseFloat("01.001")`
is `1000.9999999999999 / 1000` exactly, and `time.Duration(secs*1000)`
truncates it to `1000` milliseconds, losing one millisecond at zero offset. -/
theorem c3_zero_offset_roundtrip_fails :
    process_time "00:00:01.001".toList 0 = some "00:00:01.000".toList ∧
    "00:00:01.000".toList ≠ "00:00:01.001".toList := by decide

/-- C4 (code bug): the shifted total computed by `process_time` converts the
fractional-seconds field and the offset by float truncation, not rounding:
for `00:00:01.001` at offset `0` the code computes 1000 ms where the claimed
formula `h*3600000 + m*60000 + round(seconds*1000) + round(offset*1000)`
gives 1001 ms, and for `00:00:00.000` at offset `2⁻¹⁰ = 0.0009765625` s the
code computes 0 ms where the claimed formula gives 1 ms. -/
theorem c4_truncation_not_rounding :
    (shiftMs "00:00:01.001".toList 0 = some 1000 ∧
      (1000 : ℤ) ≠ 0 * 3600000 + 0 * 60000 + 1001 + 0) ∧
    (shiftMs "00:00:00.000".toList (1 / 1024) = some 0 ∧
      (0 : ℤ) ≠ 0 * 3600000 + 0 * 60000 + 0 + 1) := by decide

/-- C2 (code bug): converting the two-block `.srt` input with offset `-5`
reports 1 deletion but also writes the internal sentinel text
`"(DELETED)\n"` (plus the appended newline) into the output file, because the
sentinel branch of the scanner loop lacks a `continue`; the caption `Hi` and
its blank separator are suppressed and the index line `1` is retained. -/
theorem c2_srt_deletion_example :
    convert_srt ["1".toList, "00:00:02,000 --> 00:00:04,000".toList, "Hi".toList, [],
      "2".toList, "00:00:10,000 --> 00:00:12,000".toList, "Bye".toList, []] (-5) =
      some ("1\n(DELETED)\n\n2\n00:00:05,000 --> 00:00:07,000\nBye\n\n".toList, 1) ∧
    "1\n(DELETED)\n\n2\n00:00:05,000 --> 00:00:07,000\nBye\n\n".toList ≠
      "1\n2\n00:00:05,000 --> 00:00:07,000\nBye\n\n".toList := by decide

/-- C1: the three-way policy of `process_line` (RangeShifter).  For a line
whose start slice (`line[0:12]`) and end slice (`line[17:29]`) both parse,
with shifted millisecond values `sv` and `ev`: both negative gives the
deletion sentinel for the whole line; only the start negative gives
`00:00:00.000 --> ` followed by the formatted end; neither negative gives the
formatted start, ` --> `, and the formatted end. -/
theorem c1_range_shifter_policy (line : List Char) (q : ℚ) (st et : List Char) (sv ev : ℤ)
    (hs : goSliceL line 0 12 = some st) (he : goSliceL line 17 29 = some et)
    (hsv : shiftMs st q = some sv) (hev : shiftMs et q = some ev) :
    (sv < 0 → ev < 0 → process_line line q = some deletedSentinel) ∧
    (sv < 0 → 0 ≤ ev →
      process_line line q = some ("00:00:00.000 --> ".toList ++ fmtTime ev.toNat)) ∧
    (0 ≤ sv → 0 ≤ ev →
      process_line line q = some (fmtTime sv.toNat ++ " --> ".toList ++ fmtTime ev.toNat)) := by
  have h := process_line_eq line q st et sv ev hs he hsv hev
  refine ⟨fun h1 h2 => ?_, fun h1 h2 => ?_, fun h1 h2 => ?_⟩
  · rw [h, if_pos h1, if_pos h2]
  · rw [h, if_pos h1, if_neg (not_lt.2 h2)]
  · rw [h, if_neg (not_lt.2 h1), if_neg (not_lt.2 h2)]

/-- Witness for C1 on the line `00:00:02.000 --> 00:00:04.000`: offset `-5`
deletes the whole line, offset `-3` clamps the start to zero, offset `+1`
shifts both times. -/
theorem c1_range_shifter_policy_witness :
    process_line "00:00:02.000 --> 00:00:04.000".toList (-5) = some deletedSentinel ∧
    process_line "00:00:02.000 --> 00:00:04.000".toList (-3) =
      some "00:00:00.000 --> 00:00:01.000".toList ∧
    process_line "00:00:02.000 --> 00:00:04.000".toList 1 =
      some "00:00:03.000 --> 00:00:05.000".toList := by
  refine ⟨?_, ?_, ?_⟩
  · exact (c1_range_shifter_policy "00:00:02.000 --> 00:00:04.000".toList (-5)
      "00:00:02.000".toList "00:00:04.000".toList (-3000) (-1000) (by decide) (by decide)
      (by decide) (by decide)).1 (by decide) (by decide)
  · exact ((c1_range_shifter_policy "00:00:02.000 --> 00:00:04.000".toList (-3)
      "00:00:02.000".toList "00:00:04.000".toList (-1000) 1000 (by decide) (by decide)
      (by decide) (by decide)).2.1 (by decide) (by decide)).trans (by decide)
  · exact ((c1_range_shifter_policy "00:00:02.000 --> 00:00:04.000".toList 1
      "00:00:02.000".toList "00:00:04.000".toList 3000 5000 (by decide) (by decide)
      (by decide) (by decide)).2.2 (by decide) (by decide)).trans (by decide)

/-- C5: `process_time` returns the deletion sentinel exactly when the shifted
total millisecond count is negative; when it is zero or greater it returns the
`%02d:%02d:%06.3f` rendering (`fmtTime`), which is never the sentinel. -/
theorem c5_sentinel_iff_negative (t : List Char) (q : ℚ) (v : ℤ)
    (h : shiftMs t q = some v) :
    (process_time t q = some deletedSentinel ↔ v < 0) ∧
    (0 ≤ v → process_time t q = some (fmtTime v.toNat) ∧
      fmtTime v.toNat ≠ deletedSentinel) := by
  have he := process_time_eq t q v h
  constructor
  · constructor
    · intro hs
      by_contra hneg
      rw [he, if_pos (not_lt.1 hneg)] at hs
      exact fmtTime_ne_sentinel v.toNat (Option.some.inj hs)
    · intro hv
      rw [he, if_neg (not_le.2 hv)]
  · intro hv
    exact ⟨by rw [he, if_pos hv], fmtTime_ne_sentinel v.toNat⟩

/-- Witness for C5 on the time string `00:00:02.000`: offset `-3` shifts it to
`-1000` ms and yields the sentinel; offset `+1` shifts it to `3000` ms and
yields `00:00:03.000`. -/
theorem c5_sentinel_iff_negative_witness :
    process_time "00:00:02.000".toList (-3) = some deletedSentinel ∧
    process_time "00:00:02.000".toList 1 = some "00:00:03.000".toList := by
  constructor
  · exact (c5_sentinel_iff_negative _ _ (-1000) (by decide)).1.mpr (by decide)
  · exact ((c5_sentinel_iff_negative _ _ 3000 (by decide)).2 (by decide)).1.trans (by decide)

/-- C9: when the shifted end is negative but the shifted start is not (possible
when the end precedes the start), `process_line` returns the formatted start,
` --> `, and the literal sentinel text with its embedded newline; the `.vtt`
scanner loop then writes that composite line (plus a newline) to the output,
leaves the deletion counter unchanged, and does not enter suppression. -/
theorem c9_end_deleted_is_emitted (line : List Char) (q : ℚ) (st et : List Char) (sv ev : ℤ)
    (deleted : ℕ) (out : List Char)
    (hs : goSliceL line 0 12 = some st) (he : goSliceL line 17 29 = some et)
    (hsv : shiftMs st q = some sv) (hev : shiftMs et q = some ev)
    (h1 : 0 ≤ sv) (h2 : ev < 0) (hm : timeMatch '.' line = true) :
    process_line line q =
      some (fmtTime sv.toNat ++ " --> ".toList ++ deletedSentinel) ∧
    convert_vtt_step q (false, deleted, out) line =
      some (false, deleted,
        out ++ (fmtTime sv.toNat ++ " --> ".toList ++ deletedSentinel) ++ ['\n']) := by
  have h := process_line_eq line q st et sv ev hs he hsv hev
  rw [if_neg (not_lt.2 h1), if_pos h2] at h
  refine ⟨h, ?_⟩
  simp only [convert_vtt_step, hm, if_pos, h, Option.some_bind]
  rw [if_neg (append_time_ne_sentinel _ _ (fmtTime_length sv.toNat))]

/-- Witness for C9 on the reversed-range line
`00:00:05.000 --> 00:00:01.000` with offset `-3`: the emitted replacement is
`00:00:02.000 --> (DELETED)\n`, the counter stays `0`, suppression stays
off. -/
theorem c9_end_deleted_is_emitted_witness :
    process_line "00:00:05.000 --> 00:00:01.000".toList (-3) =
      some ("00:00:02.000 --> (DELETED)\n".toList) ∧
    convert_vtt_step (-3) (false, 0, []) "00:00:05.000 --> 00:00:01.000".toList =
      some (false, 0, "00:00:02.000 --> (DELETED)\n\n".toList) := by
  have h := c9_end_deleted_is_emitted "00:00:05.000 --> 00:00:01.000".toList (-3)
    "00:00:05.000".toList "00:00:01.000".toList 2000 (-2000) 0 []
    (by decide) (by decide) (by decide) (by decide) (by decide) (by decide) (by decide)
  exact ⟨h.1.trans (by decide), h.2.trans (by decide)⟩

/-- C10: on a line of length at least 29, `process_line` depends only on the
first 29 characters — two such lines agreeing on their first 29 characters
produce the same replacement, so everything past column 29 is discarded —
and whenever the shift does not produce the whole-line deletion sentinel
(i.e. not both shifted times are negative), the replacement consists only of
the rewritten characters 0–11 (the formatted shifted start, or its clamp
`00:00:00.000` when the start shifted negative), the separator ` --> `, and
the rewritten characters 17–28 (the formatted shifted end, or the end
sentinel when the end shifted negative). -/
theorem c10_tail_discarded (l1 l2 : List Char) (q : ℚ) (st et : List Char) (sv ev : ℤ)
    (hlen1 : 29 ≤ l1.length) (hlen2 : 29 ≤ l2.length) (hpre : l1.take 29 = l2.take 29)
    (hs : goSliceL l1 0 12 = some st) (he : goSliceL l1 17 29 = some et)
    (hsv : shiftMs st q = some sv) (hev : shiftMs et q = some ev) :
    process_line l1 q = process_line l2 q ∧
    (¬(sv < 0 ∧ ev < 0) →
      process_line l1 q = some (
        (if sv < 0 then "00:00:00.000".toList else fmtTime sv.toNat) ++ " --> ".toList ++
          (if ev < 0 then deletedSentinel else fmtTime ev.toNat))) := by
  have hs2 : goSliceL l2 0 12 = some st := by
    have e1 : l2.take 12 = l1.take 12 := by
      have := congrArg (List.take 12) hpre
      simpa [List.take_take] using this.symm
    have e2 : (l1.drop 0).take 12 = l1.take 12 := by simp
    rw [goSliceL, if_pos ⟨by omega, by omega⟩]
    rw [goSliceL, if_pos ⟨by omega, by omega⟩] at hs
    simpa [e1] using hs
  have he2 : goSliceL l2 17 29 = some et := by
    have e1 : (l2.drop 17).take 12 = (l1.drop 17).take 12 := by
      rw [← List.drop_take 29 17 l1, ← List.drop_take 29 17 l2, hpre]
    rw [goSliceL, if_pos ⟨by omega, by omega⟩]
    rw [goSliceL, if_pos ⟨by omega, by omega⟩] at he
    simpa [e1] using he
  have hmain := process_line_eq l1 q st et sv ev hs he hsv hev
  have hmain2 := process_line_eq l2 q st et sv ev hs2 he2 hsv hev
  refine ⟨hmain.trans hmain2.symm, fun hns => ?_⟩
  rcases lt_or_le sv 0 with h1 | h1 <;> rcases lt_or_le ev 0 with h2 | h2
  · exact absurd ⟨h1, h2⟩ hns
  · rw [hmain, if_pos h1, if_neg (not_lt.2 h2), if_pos h1, if_neg (not_lt.2 h2)]
    rw [show "00:00:00.000 --> ".toList = "00:00:00.000".toList ++ " --> ".toList from by decide,
      List.append_assoc]
  · rw [hmain, if_neg (not_lt.2 h1), if_pos h2, if_neg (not_lt.2 h1)]
  · rw [hmain, if_neg (not_lt.2 h1), if_neg (not_lt.2 h2), if_neg (not_lt.2 h1)]

/-- Witness for C10: with offset `1` the line
`00:00:02.000 --> 00:00:04.000 trailing junk` produces exactly
`00:00:03.000 --> 00:00:05.000` — the same replacement as the line whose tail
differs — and with offset `-3` the clamp-case line
`00:00:02.000 --> 00:00:04.000 trailing junk` produces exactly
`00:00:00.000 --> 00:00:01.000`, the tail again discarded. -/
theorem c10_tail_discarded_witness :
    process_line "00:00:02.000 --> 00:00:04.000 trailing junk".toList 1 =
      process_line "00:00:02.000 --> 00:00:04.000 other tail".toList 1 ∧
    process_line "00:00:02.000 --> 00:00:04.000 trailing junk".toList 1 =
      some "00:00:03.000 --> 00:00:05.000".toList ∧
    process_line "00:00:02.000 --> 00:00:04.000 trailing junk".toList (-3) =
      some "00:00:00.000 --> 00:00:01.000".toList := by
  have h := c10_tail_discarded "00:00:02.000 --> 00:00:04.000 trailing junk".toList
    "00:00:02.000 --> 00:00:04.000 other tail".toList 1
    "00:00:02.000".toList "00:00:04.000".toList 3000 5000
    (by decide) (by decide) (by decide) (by decide) (by decide) (by decide) (by decide)
  have hc := c10_tail_discarded "00:00:02.000 --> 00:00:04.000 trailing junk".toList
    "00:00:02.000 --> 00:00:04.000 trailing junk".toList (-3)
    "00:00:02.000".toList "00:00:04.000".toList (-1000) 1000
    (by decide) (by decide) rfl (by decide) (by decide) (by decide) (by decide)
  exact ⟨h.1, (h.2 (by decide)).trans (by decide), (hc.2 (by decide)).trans (by decide)⟩

/-- C8: the bare 12-character line `00:00:00.000` matches the `.vtt` time
pattern but is shorter than 29 characters, so the fixed-offset slice
`line[17:29]` in `process_line` is out of bounds: for every offset the
conversion of a file containing that line aborts on the slice instead of
producing output. -/
theorem c8_short_line_slice_panics (q : ℚ) :
    timeMatch '.' "00:00:00.000".toList = true ∧
    "00:00:00.000".toList.length < 29 ∧
    goSliceL "00:00:00.000".toList 17 29 = none ∧
    process_line "00:00:00.000".toList q = none ∧
    convert_vtt ["00:00:00.000".toList] q = none := by
  have hline : process_line "00:00:00.000".toList q = none := by
    have h0 : goSliceL "00:00:00.000".toList 0 12 = some "00:00:00.000".toList := by decide
    have h17 : goSliceL "00:00:00.000".toList 17 29 = none := by decide
    simp only [process_line, h0, h17, Option.bind_eq_bind, Option.some_bind]
    cases h : process_time "00:00:00.000".toList q <;> simp [h]
  refine ⟨by decide, by decide, by decide, hline, ?_⟩
  have hm : timeMatch '.' "00:00:00.000".toList = true := by decide
  have hstep : convert_vtt_step q (false, 0, []) "00:00:00.000".toList = none := by
    simp only [convert_vtt_step, hm, if_true, hline, Option.none_bind]
  simp only [convert_vtt, List.foldlM_cons, hstep, Option.none_bind,
    Option.bind_eq_bind, Option.map_eq_map, Option.map_none']

/-- Unfolding of `findProcTagEnd` on a nonempty list. -/
lemma findProcTagEnd_cons (x : Char) (rest : List Char) :
    findProcTagEnd (x :: rest) =
      match procTagAt (x :: rest) with
      | some k => some k
      | none => (findProcTagEnd rest).map (· + 1) := rfl

/-- If the tag pattern matches at position `pre.length` (consuming `tag`) and
at no earlier position, then `FindStringIndex` ends the leftmost match at
`pre.length + tag.length`. -/
lemma findProcTagEnd_spec (pre tag post : List Char) (hne : tag ≠ [])
    (htag : procTagAt (tag ++ post) = some tag.length)
    (hpre : ∀ i, i < pre.length → procTagAt ((pre ++ (tag ++ post)).drop i) = none) :
    findProcTagEnd (pre ++ (tag ++ post)) = some (pre.length + tag.length) := by
  induction pre with
  | nil =>
      cases tag with
      | nil => exact absurd rfl hne
      | cons t ts =>
          simp only [List.nil_append, List.cons_append, List.length_nil, Nat.zero_add] at htag ⊢
          rw [findProcTagEnd_cons]
          rw [htag]
  | cons c pre ih =>
      have h0 := hpre 0 (by simp)
      simp only [List.drop_zero, List.cons_append] at h0 ⊢
      rw [findProcTagEnd_cons, h0]
      have ih' := ih (fun i hi => by
        have := hpre (i + 1) (by simp only [List.length_cons]; omega)
        simpa only [List.cons_append, List.drop_succ_cons] using this)
      rw [ih']
      simp only [Option.map_some', List.length_cons, Option.some.injEq]
      omega

/-- Go `proc.MatchString` (= `findProcTagEnd` finding a match) holds exactly when
the tag pattern matches at some position of the filename. -/
lemma findProcTagEnd_isSome_iff (l : List Char) :
    (findProcTagEnd l).isSome = true ↔ ∃ t ∈ l.tails, (procTagAt t).isSome = true := by
  induction l with
  | nil => simp [findProcTagEnd, procTagAt]
  | cons x rest ih =>
      rw [findProcTagEnd_cons]
      cases h : procTagAt (x :: rest) with
      | some k =>
          simp only [Option.isSome_some, true_iff]
          exact ⟨x :: rest, by simp [List.tails_cons], by simp [h]⟩
      | none =>
          simp only [Option.isSome_map', List.tails_cons, List.mem_cons]
          rw [ih]
          constructor
          · rintro ⟨t, ht, hsome⟩
            exact ⟨t, Or.inr ht, hsome⟩
          · rintro ⟨t, ht | ht, hsome⟩
            · rw [ht, h] at hsome
              exact absurd hsome (by simp)
            · exact ⟨t, ht, hsome⟩

/-- C7 (amended): `name_output` treats a filename as already processed exactly
when the code's tag pattern `\{[+-]\d+\.\d+_Sec\}_` (one *or more* digits on
each side of the decimal point) matches somewhere in it; a `%`-free filename
without such a substring gets the fresh tag `{+X.XX_Sec}_` (offset ≥ 0) or
`{-X.XX_Sec}_` (offset < 0) prepended to the full original name, with the
offset rendered to exactly two decimal places (`fmt2f`). -/
theorem c7_fresh_tag_prepended (l : List Char) (s : ℚ) (_hpct : '%' ∉ l) :
    ((findProcTagEnd l).isSome = true ↔ ∃ t ∈ l.tails, (procTagAt t).isSome = true) ∧
    (findProcTagEnd l = none →
      name_output l s =
        some ((if 0 ≤ s then "\x7b+".toList else ['\x7b']) ++ fmt2f s ++ "_Sec\x7d_".toList ++ l)) := by
  refine ⟨findProcTagEnd_isSome_iff l, fun h => ?_⟩
  simp [name_output, h]

/-- Witness for C7: `movie.srt` has no tag, so offset `2.5` prepends
`{+2.50_Sec}_` (the spec's own filename example), and offset `-0.5` prepends
`{-0.50_Sec}_`. -/
theorem c7_fresh_tag_prepended_witness :
    name_output "movie.srt".toList (5 / 2) = some "\x7b+2.50_Sec\x7d_movie.srt".toList ∧
    name_output "movie.srt".toList (-1 / 2) = some "\x7b-0.50_Sec\x7d_movie.srt".toList := by
  constructor
  · exact ((c7_fresh_tag_prepended "movie.srt".toList (5 / 2) (by decide)).2
      (by decide)).trans (by decide)
  · exact ((c7_fresh_tag_prepended "movie.srt".toList (-1 / 2) (by decide)).2
      (by decide)).trans (by decide)

/-- C7 counterexample: `{+1.5_Sec}_m.srt` contains no tag of the claimed shape
`{[+-]DD.DD_Sec}_` (exactly two digits on each side), so per the claim a fresh
tag `{+1.00_Sec}_` would be prepended for offset `1`; the code instead treats
the name as already processed (its regex allows one digit) and rewrites it to
`{+2.50_Sec}_m.srt`. -/
theorem c7_counterexample :
    containsSpecTagTwoDigits "\x7b+1.5_Sec\x7d_m.srt".toList = false ∧
    name_output "\x7b+1.5_Sec\x7d_m.srt".toList 1 = some "\x7b+2.50_Sec\x7d_m.srt".toList ∧
    "\x7b+2.50_Sec\x7d_m.srt".toList ≠ "\x7b+1.00_Sec\x7d_\x7b+1.5_Sec\x7d_m.srt".toList := by decide

/-- C6 (amended): when the filename contains the tag pattern, `name_output`
parses the *leftmost* `[+-]\d+\.\d+` substring anywhere in the name (not
necessarily the number inside the first tag), adds the new offset with
`float64` addition, and replaces *everything up to and including the end of
the leftmost tag occurrence* — any characters before the first tag are
dropped — keeping only the suffix after the first tag unchanged. -/
theorem c6_retag_replaces_up_to_first_tag (pre tag post : List Char) (s v : ℚ)
    (num : List Char) (hne : tag ≠ [])
    (htag : procTagAt (tag ++ post) = some tag.length)
    (hpre : ∀ i, i < pre.length → procTagAt ((pre ++ (tag ++ post)).drop i) = none)
    (hnum : findSignedNum (pre ++ (tag ++ post)) = some num)
    (hv : goParseFloat num = some v)
    (_hpct : '%' ∉ post) :
    name_output (pre ++ (tag ++ post)) s =
      some ((if 0 ≤ floatRound (v + s) then "\x7b+".toList else ['\x7b']) ++
        fmt2f (floatRound (v + s)) ++ "_Sec\x7d_".toList ++ post) := by
  have hfind := findProcTagEnd_spec pre tag post hne htag hpre
  have hdrop : (pre ++ (tag ++ post)).drop (pre.length + tag.length) = post := by
    rw [← List.append_assoc, ← List.length_append]
    exact List.drop_left _ _
  simp [name_output, hfind, hnum, hv, hdrop]

/-- Witness for C6: re-tagging `{+2.00_Sec}_x.srt` with offset `-0.5` reads
`+2.00`, computes `1.50`, and produces `{+1.50_Sec}_x.srt`. -/
theorem c6_retag_replaces_up_to_first_tag_witness :
    name_output "\x7b+2.00_Sec\x7d_x.srt".toList (-1 / 2) = some "\x7b+1.50_Sec\x7d_x.srt".toList := by
  have h := c6_retag_replaces_up_to_first_tag [] "\x7b+2.00_Sec\x7d_".toList "x.srt".toList
    (-1 / 2) 2 "+2.00".toList (by decide) (by decide)
    (fun i hi => absurd hi (by simp)) (by decide) (by decide) (by decide)
  simpa using h.trans (by decide)

/-- C6 counterexample: on `a+1.5b{+2.00_Sec}_x.srt` with offset `0` the claim
predicts the filename stays `a+1.5b{+2.00_Sec}_x.srt` (the first tag's value
`2.00` plus `0` re-renders to the same tag, everything else untouched); the
code instead reads the leftmost signed number `+1.5` (outside the tag), drops
the prefix `a+1.5b`, and returns `{+1.50_Sec}_x.srt`. -/
theorem c6_counterexample :
    name_output "a+1.5b\x7b+2.00_Sec\x7d_x.srt".toList 0 = some "\x7b+1.50_Sec\x7d_x.srt".toList ∧
    "\x7b+1.50_Sec\x7d_x.srt".toList ≠ "a+1.5b\x7b+2.00_Sec\x7d_x.srt".toList := by decide
